import Mathlib

/-!
Verification of the web-qa-system ingestion-and-retrieval pipeline.

Shallow embedding of:
- `src/src/storage.py` (`save_chunks`, `load_chunks`)
- `src/src/processor.py` (`DataProcessor`: `_build_faiss_index`,
  `_save_index_and_metadata`, `create_and_save_index`, `load_index`, `search`)
- `src/main.py` (`_process_urls_in_background`, `handle_question_answering`)

Modelling conventions:
- A chunk is the dictionary `{"url": ..., "content": ...}` produced by
  `extract_content_from_urls`.
- The persisted chunk log `data/chunks.jsonl` is a list of lines
  (`Option (List String)`; `none` = the file does not exist).  Each line is
  written by `json.dumps(chunk)` and read by `json.loads(line)`; the codec
  below implements that serialization for the two-field string dictionary,
  including the escaping of quote, backslash and control characters, so that
  encoded records never contain a raw newline.
- Embedding vectors are `List Int` (the SentenceTransformer collaborator is a
  parameter `model : String → List Int`; claims do not depend on float
  rounding).  `faiss.IndexFlatL2` is the list of added vectors; its `search`
  returns exactly `k` labels sorted by ascending squared L2 distance with ties
  broken by insertion position, padding with label `-1` when `k` exceeds
  `ntotal` (documented FAISS behaviour for exact flat indexes).
- Python list subscripts are `Int`s with Python semantics: a negative
  subscript `i` addresses position `len + i`, and an out-of-range subscript
  raises `IndexError` (modelled with `Except Unit`).
- The chunk-file path may be unwritable independently of the index artifacts
  (`chunkWritable`); `save_chunks` catches every exception and only logs it.
-/

namespace WebQA

/-- One unit of retrievable text plus its source URL: the dictionary
`{"url": url, "content": content}` built in `extract_content_from_urls`. -/
structure Chunk where
  url : String
  content : String
deriving DecidableEq, Repr

/-! ## JSON-line codec: `json.dumps` / `json.loads` for a chunk record -/

/-- Escaping performed by `json.dumps` on one character of a string value. -/
def escapeChar (c : Char) : List Char :=
  if c = '\\' then ['\\', '\\']
  else if c = '"' then ['\\', '"']
  else if c = '\n' then ['\\', 'n']
  else if c = '\r' then ['\\', 'r']
  else if c = '\t' then ['\\', 't']
  else [c]

/-- Escape a whole string value, character by character. -/
def escList : List Char → List Char
  | [] => []
  | c :: rest => escapeChar c ++ escList rest

/-- Decode one escape code (the character after a backslash). -/
def unescCode (c : Char) : Option Char :=
  if c = '\\' then some '\\'
  else if c = '"' then some '"'
  else if c = 'n' then some '\n'
  else if c = 'r' then some '\r'
  else if c = 't' then some '\t'
  else none

/-- Parse a JSON string body up to and including its closing quote; returns
the decoded characters and the remaining input. -/
def parseQuoted : List Char → Option (List Char × List Char)
  | [] => none
  | c :: rest =>
    if c = '"' then some ([], rest)
    else if c = '\\' then
      match rest with
      | [] => none
      | e :: rest2 =>
        match unescCode e with
        | none => none
        | some c2 =>
          match parseQuoted rest2 with
          | none => none
          | some (s, r) => some (c2 :: s, r)
    else
      match parseQuoted rest with
      | none => none
      | some (s, r) => some (c :: s, r)

/-- Consume an expected literal portion of the record grammar. -/
def eatLit : List Char → List Char → Option (List Char)
  | [], input => some input
  | _ :: _, [] => none
  | l :: ls, c :: cs => if c = l then eatLit ls cs else none

/-- Literal before the url value: `{"url": "`. -/
def preL : List Char := ("\x7b\"url\": \"").data

/-- Literal between the two values: `, "content": "`. -/
def midL : List Char := (", \"content\": \"").data

/-- Literal after the content value: `}`. -/
def sufL : List Char := ("\x7d").data

/-- The characters of `json.dumps({"url": u, "content": t})`. -/
def encodeList (c : Chunk) : List Char :=
  preL ++ escList c.url.data ++ '"' :: midL ++ escList c.content.data ++ '"' :: sufL

/-- One line of the chunk log, as written by `save_chunks`. -/
def encodeChunk (c : Chunk) : String := ⟨encodeList c⟩

/-- `json.loads` of the characters of one line: literal, url value, literal,
content value, literal, end of input; any deviation is a malformed record. -/
def decodeList (input : List Char) : Option Chunk :=
  (eatLit preL input).bind fun r1 =>
  (parseQuoted r1).bind fun p1 =>
  (eatLit midL p1.2).bind fun r3 =>
  (parseQuoted r3).bind fun p2 =>
  match eatLit sufL p2.2 with
  | some [] => some ⟨⟨p1.1⟩, ⟨p2.1⟩⟩
  | _ => none

/-- `json.loads` of one line of the chunk log: accepts exactly the record
grammar written by `save_chunks`; anything else is a malformed record. -/
def decodeChunk (s : String) : Option Chunk := decodeList s.data

/-! ## State: the persisted artifacts, the module-level globals, and the
`DataProcessor` object -/

/-- `faiss.IndexFlatL2` after `add`: the sequence of indexed vectors, in
insertion order (position `i` is the vector of chunk `i`). -/
structure FaissIndex where
  vecs : List (List Int)
deriving DecidableEq, Repr

/-- `index.ntotal`: the number of indexed vectors. -/
def FaissIndex.ntotal (idx : FaissIndex) : Nat := idx.vecs.length

/-- The mutable fields of the `DataProcessor` object: `self.index` and
`self.chunks`. -/
structure Proc where
  index : Option FaissIndex
  chunks : List Chunk
deriving DecidableEq, Repr

/-- The program state the claims are about: the three persisted artifacts
(`data/chunks.jsonl` as its lines, `data/index.faiss`,
`data/chunks_with_metadata.json`), whether the chunk-log path is writable,
the module-level global `all_chunks`, and the `DataProcessor`. -/
structure World where
  chunkFile : Option (List String)
  chunkWritable : Bool
  indexFile : Option FaissIndex
  metaFile : Option (List Chunk)
  allChunks : List Chunk
  proc : Proc
deriving DecidableEq, Repr

/-! ## `src/src/storage.py` -/

/-- Body of `load_chunks`: a missing file yields `[]`; otherwise records are
accumulated line by line inside one `try`, and the `except` clause discards
everything (`chunks = []`) as soon as any line fails `json.loads`.  Thus the
result is the full decoded list when every line parses, and `[]` otherwise. -/
def loadChunksFile : Option (List String) → List Chunk
  | none => []
  | some lines =>
    match lines.mapM decodeChunk with
    | some cs => cs
    | none => []

/-- `load_chunks()` against the current on-disk chunk log. -/
def loadChunks (w : World) : List Chunk := loadChunksFile w.chunkFile

/-- `save_chunks(chunks)`: rewrites the whole log, one `json.dumps` line per
chunk.  The `try`/`except` catches any write failure and only logs it, so an
unwritable chunk-log path leaves the file as it was and the caller observes a
normal return either way. -/
def saveChunks (w : World) (cs : List Chunk) : World :=
  if w.chunkWritable then { w with chunkFile := some (cs.map encodeChunk) } else w

/-! ## FAISS exact search (`IndexFlatL2.search`) -/

/-- Squared Euclidean distance (FAISS flat L2 metric; build and query vectors
share dimensionality). -/
def sqDist : List Int → List Int → Int
  | [], _ => 0
  | _, [] => 0
  | a :: u, b :: v => (a - b) ^ 2 + sqDist u v

/-- Insert a `(distance, position)` pair keeping the list sorted by ascending
distance, ties broken by lower position first. -/
def insertPair (a : Int × Nat) : List (Int × Nat) → List (Int × Nat)
  | [] => [a]
  | b :: rest =>
    if a.1 < b.1 ∨ (a.1 = b.1 ∧ a.2 ≤ b.2) then a :: b :: rest
    else b :: insertPair a rest

/-- Sort `(distance, position)` pairs ascending (distance, then position). -/
def sortPairs (l : List (Int × Nat)) : List (Int × Nat) :=
  l.foldr insertPair []

/-- `index.search(q, k)` label row: the positions of the up-to-`k` nearest
vectors sorted by ascending distance, padded with label `-1` up to exactly
`k` entries when `k` exceeds `ntotal` (FAISS returns a fixed `(1, k)` array
and marks missing neighbours with `-1`). -/
def FaissIndex.searchLabels (idx : FaissIndex) (q : List Int) (k : Nat) : List Int :=
  let cands := idx.vecs.enum.map (fun p => (sqDist q p.2, p.1))
  let top := (sortPairs cands).take k
  let labels := top.map (fun p => (p.2 : Int))
  labels ++ List.replicate (k - labels.length) (-1)

/-! ## `src/src/processor.py` -/

/-- Python list subscript `l[i]` with an `Int` subscript: a negative `i`
addresses position `len(l) + i`; out of range raises `IndexError`. -/
def pyGet (l : List Chunk) (i : Int) : Except Unit Chunk :=
  if 0 ≤ i then
    if h : i.toNat < l.length then .ok (l.get ⟨i.toNat, h⟩) else .error ()
  else if 0 ≤ (l.length : Int) + i then
    if h : ((l.length : Int) + i).toNat < l.length then .ok (l.get ⟨((l.length : Int) + i).toNat, h⟩)
    else .error ()
  else .error ()

/-- The result-collection loop of `DataProcessor.search`:
`for i in indices[0]: if i < len(self.chunks): results.append(self.chunks[i])`.
The comparison `i < len(...)` is over Python ints, so `-1` passes it and the
subscript uses negative indexing. -/
def collectResults (chunks : List Chunk) : List Int → Except Unit (List Chunk)
  | [] => .ok []
  | i :: rest =>
    if i < (chunks.length : Int) then
      match pyGet chunks i with
      | .error e => .error e
      | .ok c =>
        match collectResults chunks rest with
        | .error e => .error e
        | .ok cs => .ok (c :: cs)
    else collectResults chunks rest

/-- `DataProcessor.search(query_text, k)`: returns `[]` when no index is
loaded; otherwise embeds the query, takes the label row from FAISS and maps
each surviving label through `self.chunks`.  `model` is the
SentenceTransformer collaborator. -/
def searchProc (model : String → List Int) (p : Proc) (q : String) (k : Nat) :
    Except Unit (List Chunk) :=
  match p.index with
  | none => .ok []
  | some idx => collectResults p.chunks (idx.searchLabels (model q) k)

/-- `DataProcessor.create_and_save_index(chunks)`: a no-op on an empty batch;
otherwise embeds every chunk's content, builds a fresh flat index over the
embeddings (`_build_faiss_index`), persists the index and the paired chunk
list (`_save_index_and_metadata`), and sets `self.chunks`. -/
def createAndSaveIndex (model : String → List Int) (w : World) (cs : List Chunk) :
    World :=
  if cs.isEmpty then w
  else
    let idx : FaissIndex := ⟨cs.map (fun c => model c.content)⟩
    { w with indexFile := some idx, metaFile := some cs, proc := ⟨some idx, cs⟩ }

/-- `DataProcessor.load_index()`: requires both persisted artifacts to exist;
when they do, it deserializes them into `self.index` and `self.chunks` and
returns `True` — no consistency check between the two is performed.  When
either is missing it returns `False` without touching the processor. -/
def loadIndexW (w : World) : World × Bool :=
  match w.indexFile, w.metaFile with
  | some idx, some cs => ({ w with proc := ⟨some idx, cs⟩ }, true)
  | _, _ => (w, false)

/-! ## `src/main.py` -/

/-- `_process_urls_in_background(urls)` after `extract_content_from_urls` has
produced `extracted`: when the batch is non-empty, reload the log from disk,
append the batch, save the merged list, publish it to the global
`all_chunks`, and rebuild the index over it; an empty batch only logs a
warning. -/
def processUrlsInBackground (model : String → List Int) (w : World)
    (extracted : List Chunk) : World :=
  if extracted.isEmpty then w
  else
    let merged := loadChunks w ++ extracted
    let w1 := saveChunks w merged
    let w2 := { w1 with allChunks := merged }
    createAndSaveIndex model w2 merged

/-- Outcome of `handle_question_answering`. -/
inductive QAResult where
  | kbEmpty
  | llmInitError
  | noRelevant
  | answer (chunks : List Chunk)
  | raised
deriving DecidableEq, Repr

/-- `handle_question_answering(question)`: reload `all_chunks` from disk;
if the index is absent or its size disagrees, rebuild and re-load it; then an
empty `all_chunks` or a still-absent index yields the explicit
"knowledge base is empty" reply; otherwise the LLM client is initialized
(`llmOk` models whether `GEMINI_API_KEY` is set) and the top-3 search results
drive the answer. -/
def handleQuestionAnswering (model : String → List Int) (w : World)
    (question : String) (llmOk : Bool) : World × QAResult :=
  let ac := loadChunksFile w.chunkFile
  let w1 := { w with allChunks := ac }
  let stale := match w1.proc.index with
    | none => true
    | some idx => idx.ntotal ≠ ac.length
  let w2 := if stale then (loadIndexW (createAndSaveIndex model w1 ac)).1 else w1
  if ac.isEmpty ∨ w2.proc.index = none then (w2, .kbEmpty)
  else if llmOk = false then (w2, .llmInitError)
  else
    match searchProc model w2.proc question 3 with
    | .error _ => (w2, .raised)
    | .ok [] => (w2, .noRelevant)
    | .ok rs => (w2, .answer rs)

/-! ## Concurrent ingestion: background tasks on the single-threaded loop

`asyncio.create_task(_process_urls_in_background(urls))` schedules ingestion
batches as independent tasks on one event loop.  A task can yield control
only at an `await` that actually suspends.  `load_chunks` and `save_chunks`
are `async def`s with no `await` in their bodies, so awaiting them runs them
synchronously inside the awaiting task, and `create_and_save_index` is a
plain call: the only genuine suspension point of
`_process_urls_in_background` is `await extract_content_from_urls(urls)`,
which precedes the merge.  Hence once a task resumes after extraction, its
entire reload-append-save-publish-rebuild sequence runs to completion
atomically on the single-threaded loop.  The scheduler's only freedom is the
order in which the tasks' extractions complete, i.e. the order in which the
atomic merges execute. -/
def runIngestions (model : String → List Int) (batches : List (List Chunk))
    (w : World) : World :=
  batches.foldl (processUrlsInBackground model) w

/-! ## Codec lemmas: the record writer and reader are inverse -/

theorem eatLit_append (l r : List Char) : eatLit l (l ++ r) = some r := by
  induction l with
  | nil => rfl
  | cons c cs ih =>
    show (if c = c then eatLit cs (cs ++ r) else none) = some r
    rw [if_pos rfl, ih]

theorem eatLit_self (l : List Char) : eatLit l l = some [] := by
  have h := eatLit_append l []
  rwa [List.append_nil] at h

theorem parseQuoted_cons_eq (c : Char) (tl : List Char) :
    parseQuoted (c :: tl) =
      if c = '"' then some ([], tl)
      else if c = '\\' then
        match tl with
        | [] => none
        | e :: rest2 =>
          match unescCode e with
          | none => none
          | some c2 =>
            match parseQuoted rest2 with
            | none => none
            | some (s, r) => some (c2 :: s, r)
      else
        match parseQuoted tl with
        | none => none
        | some (s, r) => some (c :: s, r) := by
  rw [parseQuoted.eq_def]

theorem parseQuoted_quote (tl : List Char) : parseQuoted ('"' :: tl) = some ([], tl) := by
  rw [parseQuoted_cons_eq, if_pos rfl]

theorem parseQuoted_other (c : Char) (tl : List Char) (h1 : ¬ c = '"') (h2 : ¬ c = '\\') :
    parseQuoted (c :: tl) = (parseQuoted tl).map (fun p => (c :: p.1, p.2)) := by
  rw [parseQuoted_cons_eq, if_neg h1, if_neg h2]
  cases hp : parseQuoted tl with
  | none => rfl
  | some p => obtain ⟨s, r⟩ := p; rfl

theorem parseQuoted_esc (e c2 : Char) (tl : List Char) (h : unescCode e = some c2) :
    parseQuoted ('\\' :: e :: tl) = (parseQuoted tl).map (fun p => (c2 :: p.1, p.2)) := by
  rw [parseQuoted_cons_eq, if_neg (by decide : ¬ ('\\' : Char) = '"'), if_pos rfl]
  simp only [h]
  cases hp : parseQuoted tl with
  | none => rfl
  | some p => obtain ⟨s, r⟩ := p; rfl

theorem parseQuoted_escList (s r : List Char) :
    parseQuoted (escList s ++ '"' :: r) = some (s, r) := by
  induction s with
  | nil => exact parseQuoted_quote r
  | cons c rest ih =>
    have hcons : escList (c :: rest) ++ '"' :: r = escapeChar c ++ (escList rest ++ '"' :: r) := by
      show (escapeChar c ++ escList rest) ++ '"' :: r = _
      rw [List.append_assoc]
    rw [hcons]
    by_cases h1 : c = '\\'
    · subst h1
      rw [show escapeChar '\\' = ['\\', '\\'] from rfl]
      rw [show (['\\', '\\'] : List Char) ++ (escList rest ++ '"' :: r)
            = '\\' :: '\\' :: (escList rest ++ '"' :: r) from rfl]
      rw [parseQuoted_esc '\\' '\\' (escList rest ++ '"' :: r) (by decide), ih]
      rfl
    · by_cases h2 : c = '"'
      · subst h2
        rw [show escapeChar '"' = ['\\', '"'] from rfl]
        rw [show (['\\', '"'] : List Char) ++ (escList rest ++ '"' :: r)
              = '\\' :: '"' :: (escList rest ++ '"' :: r) from rfl]
        rw [parseQuoted_esc '"' '"' (escList rest ++ '"' :: r) (by decide), ih]
        rfl
      · by_cases h3 : c = '\n'
        · subst h3
          rw [show escapeChar '\n' = ['\\', 'n'] from rfl]
          rw [show (['\\', 'n'] : List Char) ++ (escList rest ++ '"' :: r)
                = '\\' :: 'n' :: (escList rest ++ '"' :: r) from rfl]
          rw [parseQuoted_esc 'n' '\n' (escList rest ++ '"' :: r) (by decide), ih]
          rfl
        · by_cases h4 : c = '\r'
          · subst h4
            rw [show escapeChar '\r' = ['\\', 'r'] from rfl]
            rw [show (['\\', 'r'] : List Char) ++ (escList rest ++ '"' :: r)
                  = '\\' :: 'r' :: (escList rest ++ '"' :: r) from rfl]
            rw [parseQuoted_esc 'r' '\r' (escList rest ++ '"' :: r) (by decide), ih]
            rfl
          · by_cases h5 : c = '\t'
            · subst h5
              rw [show escapeChar '\t' = ['\\', 't'] from rfl]
              rw [show (['\\', 't'] : List Char) ++ (escList rest ++ '"' :: r)
                    = '\\' :: 't' :: (escList rest ++ '"' :: r) from rfl]
              rw [parseQuoted_esc 't' '\t' (escList rest ++ '"' :: r) (by decide), ih]
              rfl
            · rw [show escapeChar c = [c] by simp [escapeChar, h1, h2, h3, h4, h5]]
              rw [show ([c] : List Char) ++ (escList rest ++ '"' :: r)
                    = c :: (escList rest ++ '"' :: r) from rfl]
              rw [parseQuoted_other c (escList rest ++ '"' :: r) h2 h1, ih]
              rfl

theorem decodeList_encodeList (c : Chunk) : decodeList (encodeList c) = some c := by
  obtain ⟨⟨u⟩, ⟨t⟩⟩ := c
  have hshape : encodeList ⟨⟨u⟩, ⟨t⟩⟩
      = preL ++ (escList u ++ '"' :: (midL ++ (escList t ++ '"' :: sufL))) := by
    simp only [encodeList, List.append_assoc, List.cons_append]
  rw [hshape]
  simp only [decodeList, eatLit_append, Option.some_bind, parseQuoted_escList, eatLit_self]

theorem decodeChunk_encodeChunk (c : Chunk) : decodeChunk (encodeChunk c) = some c :=
  decodeList_encodeList c

theorem mapM_decode_encode (cs : List Chunk) :
    (cs.map encodeChunk).mapM decodeChunk = some cs := by
  induction cs with
  | nil => rfl
  | cons c rest ih =>
    rw [List.map_cons, List.mapM_cons, decodeChunk_encodeChunk, ih]
    rfl

theorem loadChunksFile_of_save (cs : List Chunk) :
    loadChunksFile (some (cs.map encodeChunk)) = cs := by
  rw [loadChunksFile, mapM_decode_encode]

theorem mapM_decode_none (lines : List String) (h : ∃ l ∈ lines, decodeChunk l = none) :
    lines.mapM decodeChunk = none := by
  induction lines with
  | nil => simp at h
  | cons a rest ih =>
    rw [List.mapM_cons]
    rcases h with ⟨l, hl, hnone⟩
    rcases List.mem_cons.mp hl with rfl | hmem
    · rw [hnone]; rfl
    · rw [ih ⟨l, hmem, hnone⟩]
      cases decodeChunk a <;> rfl

/-! ## Search lemmas: the shape of the label row and the collection loop -/

theorem searchLabels_ge (idx : FaissIndex) (q : List Int) (k : Nat) :
    ∀ i ∈ idx.searchLabels q k, -1 ≤ i := by
  intro i hi
  simp only [FaissIndex.searchLabels] at hi
  rcases List.mem_append.mp hi with h | h
  · obtain ⟨p, _, rfl⟩ := List.mem_map.mp h
    have := Int.natCast_nonneg p.2
    omega
  · rw [List.eq_of_mem_replicate h]

theorem pyGet_ok (chunks : List Chunk) (i : Int) (hne : chunks ≠ [])
    (h1 : -1 ≤ i) (h2 : i < (chunks.length : Int)) : ∃ c, pyGet chunks i = .ok c := by
  have hpos : 0 < chunks.length := List.length_pos.mpr hne
  unfold pyGet
  by_cases hge : 0 ≤ i
  · have ht : i.toNat < chunks.length := by omega
    rw [if_pos hge, dif_pos ht]
    exact ⟨_, rfl⟩
  · have hip : i = -1 := by omega
    subst hip
    have hj : (0 : Int) ≤ (chunks.length : Int) + -1 := by omega
    have hjt : ((chunks.length : Int) + -1).toNat < chunks.length := by omega
    rw [if_neg hge, if_pos hj, dif_pos hjt]
    exact ⟨_, rfl⟩

theorem collectResults_ok (chunks : List Chunk) (hne : chunks ≠ []) :
    ∀ labels : List Int, (∀ i ∈ labels, -1 ≤ i) →
      ∃ l, collectResults chunks labels = .ok l := by
  intro labels
  induction labels with
  | nil => exact fun _ => ⟨[], rfl⟩
  | cons i rest ih =>
    intro h
    obtain ⟨l, hl⟩ := ih fun j hj => h j (List.mem_cons_of_mem _ hj)
    by_cases hlt : i < (chunks.length : Int)
    · obtain ⟨c, hc⟩ := pyGet_ok chunks i hne (h i (List.mem_cons_self _ _)) hlt
      refine ⟨c :: l, ?_⟩
      rw [collectResults, if_pos hlt, hc, hl]
    · refine ⟨l, ?_⟩
      rw [collectResults, if_neg hlt]
      exact hl

/-! ## Ingestion lemmas: what one atomic merge does to the persisted log -/

theorem saveChunks_chunkWritable (w : World) (cs : List Chunk) :
    (saveChunks w cs).chunkWritable = w.chunkWritable := by
  unfold saveChunks
  split <;> rfl

theorem createAndSaveIndex_chunkWritable (model : String → List Int) (w : World)
    (cs : List Chunk) : (createAndSaveIndex model w cs).chunkWritable = w.chunkWritable := by
  unfold createAndSaveIndex
  split <;> rfl

theorem createAndSaveIndex_chunkFile (model : String → List Int) (w : World)
    (cs : List Chunk) : (createAndSaveIndex model w cs).chunkFile = w.chunkFile := by
  unfold createAndSaveIndex
  split <;> rfl

theorem processUrlsInBackground_chunkWritable (model : String → List Int) (w : World)
    (b : List Chunk) :
    (processUrlsInBackground model w b).chunkWritable = w.chunkWritable := by
  unfold processUrlsInBackground
  split
  · rfl
  · exact (createAndSaveIndex_chunkWritable model _ _).trans (saveChunks_chunkWritable w _)

theorem loadChunks_process (model : String → List Int) (w : World) (b : List Chunk)
    (hw : w.chunkWritable = true) :
    loadChunks (processUrlsInBackground model w b) = loadChunks w ++ b := by
  cases b with
  | nil =>
    show loadChunks w = loadChunks w ++ []
    rw [List.append_nil]
  | cons a rest =>
    have h1 : (processUrlsInBackground model w (a :: rest)).chunkFile
        = some ((loadChunks w ++ a :: rest).map encodeChunk) := by
      show (createAndSaveIndex model _ (loadChunks w ++ a :: rest)).chunkFile = _
      rw [createAndSaveIndex_chunkFile]
      show (saveChunks w (loadChunks w ++ a :: rest)).chunkFile = _
      unfold saveChunks
      rw [if_pos hw]
    show loadChunksFile (processUrlsInBackground model w (a :: rest)).chunkFile = _
    rw [h1]
    exact loadChunksFile_of_save _

/-! ## Concrete scenarios shared by the claim theorems -/

/-- Concrete embedding collaborator for concrete scenarios: one-dimensional
embedding by text length. -/
def embedLen (s : String) : List Int := [(s.length : Int)]

/-- Cold-start world: no persisted artifacts, writable storage. -/
def coldWorld : World := ⟨none, true, none, none, [], ⟨none, []⟩⟩

/-- World whose chunk-log path is unwritable; the log exists and is empty. -/
def roWorld : World := ⟨some [], false, none, none, [], ⟨none, []⟩⟩

/-- The one-chunk batch used against the unwritable world. -/
def batchUX : List Chunk := [⟨"u", "x"⟩]

/-- Three concrete chunks with contents of pairwise distinct lengths. -/
def chunks3 : List Chunk := [⟨"u1", "a"⟩, ⟨"u2", "bb"⟩, ⟨"u3", "cccc"⟩]

/-- Processor state after a rebuild over `chunks3`: a 3-vector index paired
with the 3-chunk list. -/
def proc3 : Proc :=
  ⟨some (FaissIndex.mk (chunks3.map fun c => embedLen c.content)), chunks3⟩

deriving instance DecidableEq for Except

/-! ## Claims -/

/-- Claim C1: ingestion batches are serialized — the reload-append-save-rebuild
sequence of B2 does not begin until B1 has fully completed or failed — so
after two concurrently submitted batches complete, the persisted store
contains every chunk of B1 and every chunk of B2 (no lost update).  This
holds by run-to-completion semantics: `load_chunks` and `save_chunks` never
suspend (async defs with no internal `await`), so each task's merge section
is atomic on the single-threaded event loop and only the order of the two
atomic merges is up to the scheduler.  Whichever batch merges second reloads
a store already containing the first batch, so (on writable storage, for
either completion order, since `b1` and `b2` range over all batches) the
final persisted store is the initial store followed by both batches. -/
theorem claim1_serialized_no_lost_update (model : String → List Int) (w : World)
    (b1 b2 : List Chunk) (hw : w.chunkWritable = true) :
    loadChunks (runIngestions model [b1, b2] w) = loadChunks w ++ b1 ++ b2 ∧
    (∀ c ∈ b1, c ∈ loadChunks (runIngestions model [b1, b2] w)) ∧
    (∀ c ∈ b2, c ∈ loadChunks (runIngestions model [b1, b2] w)) := by
  have hw1 : (processUrlsInBackground model w b1).chunkWritable = true :=
    (processUrlsInBackground_chunkWritable model w b1).trans hw
  have heq : loadChunks (runIngestions model [b1, b2] w) = loadChunks w ++ b1 ++ b2 := by
    show loadChunks (processUrlsInBackground model (processUrlsInBackground model w b1) b2)
      = loadChunks w ++ b1 ++ b2
    rw [loadChunks_process model _ b2 hw1, loadChunks_process model w b1 hw]
  refine ⟨heq, ?_, ?_⟩
  · intro c hc
    rw [heq]
    exact List.mem_append_left _ (List.mem_append_right _ hc)
  · intro c hc
    rw [heq]
    exact List.mem_append_right _ hc

/-- Witness for C1: two one-chunk batches merged in sequence against the
cold-start world — both chunks end up in the persisted store. -/
theorem claim1_witness :
    loadChunks (runIngestions embedLen [[⟨"http://a", "alpha"⟩], [⟨"http://b", "beta"⟩]]
        coldWorld)
      = [⟨"http://a", "alpha"⟩, ⟨"http://b", "beta"⟩] ∧
    (⟨"http://a", "alpha"⟩ : Chunk) ∈ loadChunks (runIngestions embedLen
        [[⟨"http://a", "alpha"⟩], [⟨"http://b", "beta"⟩]] coldWorld) ∧
    (⟨"http://b", "beta"⟩ : Chunk) ∈ loadChunks (runIngestions embedLen
        [[⟨"http://a", "alpha"⟩], [⟨"http://b", "beta"⟩]] coldWorld) := by
  have h := claim1_serialized_no_lost_update embedLen coldWorld
    [⟨"http://a", "alpha"⟩] [⟨"http://b", "beta"⟩] rfl
  exact ⟨h.1.trans (by decide), h.2.1 ⟨"http://a", "alpha"⟩ (by decide),
    h.2.2 ⟨"http://b", "beta"⟩ (by decide)⟩

/-- Claim C2 (counterexample): the claim says a load skips malformed records
and returns all well-formed ones.  On the log `[good, "oops", good]` the code
returns `[]`, not the two well-formed records: the `except` clause of
`load_chunks` empties the whole result. -/
theorem claim2_counterexample :
    loadChunksFile
        (some [encodeChunk ⟨"u1", "alpha"⟩, "oops", encodeChunk ⟨"u2", "beta"⟩]) = [] ∧
    loadChunksFile
        (some [encodeChunk ⟨"u1", "alpha"⟩, "oops", encodeChunk ⟨"u2", "beta"⟩])
      ≠ [⟨"u1", "alpha"⟩, ⟨"u2", "beta"⟩] := by
  decide

/-- Claim C2 (amended): `load_chunks` accumulates records inside one `try`
whose `except` clause resets the result to `[]`, so a persisted log
containing any malformed record loads as the empty list — no well-formed
record survives the load. -/
theorem claim2_amended_load_discards_all (lines : List String)
    (h : ∃ l ∈ lines, decodeChunk l = none) :
    loadChunksFile (some lines) = [] := by
  show (match lines.mapM decodeChunk with
    | some cs => cs
    | none => []) = []
  rw [mapM_decode_none lines h]

/-- Witness for C2 (amended) at a concrete one-line malformed log. -/
theorem claim2_witness : loadChunksFile (some ["oops"]) = [] :=
  claim2_amended_load_discards_all ["oops"] ⟨"oops", by decide, by decide⟩

/-- Claim C3 (counterexample): the claim says a failed store write surfaces
`IOFailure` and aborts without touching the index.  With the chunk log
unwritable, `_process_urls_in_background` still rebuilds the index over the
merged batch (the processor index changes from `none` to the 1-vector index)
while the persisted log stays as it was — the write error was swallowed. -/
theorem claim3_counterexample :
    (processUrlsInBackground embedLen roWorld batchUX).proc.index = some ⟨[[1]]⟩ ∧
    (processUrlsInBackground embedLen roWorld batchUX).chunkFile = some [] := by
  decide

/-- Claim C3 (amended): when the chunk-log write fails, `save_chunks` catches
the exception and only logs it; the ingestion continues as if the save had
succeeded, rebuilding the index and the processor state over the in-memory
merged sequence while the persisted log is left unchanged — the index runs
ahead of the store instead of the ingestion aborting. -/
theorem claim3_amended_save_error_swallowed (model : String → List Int) (w : World)
    (extracted : List Chunk) (hne : extracted ≠ []) (hw : w.chunkWritable = false) :
    (processUrlsInBackground model w extracted).chunkFile = w.chunkFile ∧
    (processUrlsInBackground model w extracted).proc =
      Proc.mk
        (some (FaissIndex.mk ((loadChunks w ++ extracted).map fun c => model c.content)))
        (loadChunks w ++ extracted) := by
  cases extracted with
  | nil => cases hne rfl
  | cons a rest =>
    have hme : (loadChunks w ++ a :: rest).isEmpty = false := by
      cases hl : loadChunks w <;> rfl
    simp [processUrlsInBackground, saveChunks, createAndSaveIndex, hw, hme]

/-- Witness for C3 (amended): the unwritable-log world with a one-chunk
batch. -/
theorem claim3_witness :
    (processUrlsInBackground embedLen roWorld batchUX).chunkFile = roWorld.chunkFile ∧
    (processUrlsInBackground embedLen roWorld batchUX).proc =
      Proc.mk
        (some (FaissIndex.mk
          ((loadChunks roWorld ++ batchUX).map fun c => embedLen c.content)))
        (loadChunks roWorld ++ batchUX) :=
  claim3_amended_save_error_swallowed embedLen roWorld batchUX (by decide) rfl

/-- Claim C4: the claim says `k` is clamped to the index size, so `search`
with `k = 4` against the 3-entry index returns exactly 3 results.  The code
returns 4: FAISS pads the label row with `-1`, `-1 < len(self.chunks)` holds
in Python, and `self.chunks[-1]` duplicates the last chunk.  The intended
bound guard `i < len(self.chunks)` fails to exclude the pad label, so the
spec's clamping is the intent and the guard is the slip. -/
theorem claim4_k_not_clamped :
    searchProc embedLen proc3 "" 4
      = .ok [⟨"u1", "a"⟩, ⟨"u2", "bb"⟩, ⟨"u3", "cccc"⟩, ⟨"u3", "cccc"⟩] ∧
    proc3.chunks.length = 3 ∧
    searchProc embedLen proc3 "" 4
      ≠ .ok [⟨"u1", "a"⟩, ⟨"u2", "bb"⟩, ⟨"u3", "cccc"⟩] := by
  decide

/-- World whose persisted index (2 vectors) and persisted chunk list
(1 chunk) disagree in size. -/
def mismatchWorld : World :=
  ⟨none, true, some ⟨[[1], [2]]⟩, some [⟨"u", "a"⟩], [], ⟨none, []⟩⟩

/-- Claim C5 (counterexample): the claim says a size-mismatched pair of
artifacts is treated as no valid index.  `load_index` performs no
consistency check: on a 2-vector index paired with a 1-chunk list it returns
`True` and installs the mismatched pair. -/
theorem claim5_counterexample :
    (loadIndexW mismatchWorld).2 = true ∧
    (loadIndexW mismatchWorld).1.proc.index = some ⟨[[1], [2]]⟩ ∧
    (loadIndexW mismatchWorld).1.proc.chunks = [⟨"u", "a"⟩] ∧
    FaissIndex.ntotal ⟨[[1], [2]]⟩ = 2 ∧ [(⟨"u", "a"⟩ : Chunk)].length = 1 := by
  decide

/-- Claim C5 (amended): `load_index` returns no snapshot when either
persisted artifact is missing (leaving the processor untouched); when both
are present it loads them and reports success with no size-consistency
check, so a mismatched pair is installed and served. -/
theorem claim5_amended_no_size_check (w : World) :
    (w.indexFile = none ∨ w.metaFile = none → loadIndexW w = (w, false)) ∧
    ∀ idx cs, w.indexFile = some idx → w.metaFile = some cs →
      loadIndexW w = ({ w with proc := ⟨some idx, cs⟩ }, true) := by
  constructor
  · intro h
    unfold loadIndexW
    rcases hx : w.indexFile with _ | idx
    · rcases hy : w.metaFile with _ | cs <;> rfl
    · rcases hy : w.metaFile with _ | cs
      · rfl
      · rcases h with h | h
        · rw [hx] at h; exact Option.noConfusion h
        · rw [hy] at h; exact Option.noConfusion h
  · intro idx cs h1 h2
    unfold loadIndexW
    rw [h1, h2]

/-- Witness for C5 (amended): a missing-index world and the mismatched-pair
world. -/
theorem claim5_witness :
    loadIndexW coldWorld = (coldWorld, false) ∧
    loadIndexW mismatchWorld
      = ({ mismatchWorld with proc := ⟨some ⟨[[1], [2]]⟩, [⟨"u", "a"⟩]⟩ }, true) :=
  ⟨(claim5_amended_no_size_check coldWorld).1 (Or.inl rfl),
   (claim5_amended_no_size_check mismatchWorld).2 ⟨[[1], [2]]⟩ [⟨"u", "a"⟩] rfl rfl⟩

/-- Claim C6: rebuilding with an empty chunk sequence is a no-op:
`create_and_save_index` returns before building anything, leaving the
in-memory index, the paired chunk list, and all persisted artifacts exactly
as they were; likewise the whole background ingestion of an empty batch
changes nothing. -/
theorem claim6_empty_rebuild_noop (model : String → List Int) (w : World) :
    createAndSaveIndex model w [] = w ∧ processUrlsInBackground model w [] = w :=
  ⟨rfl, rfl⟩

/-- Claim C7: save/load round-trip — saving any non-empty chunk sequence on
writable storage and loading it back yields the identical sequence in the
same order. -/
theorem claim7_save_load_roundtrip (w : World) (cs : List Chunk)
    (hw : w.chunkWritable = true) (_hne : cs ≠ []) :
    loadChunks (saveChunks w cs) = cs := by
  show loadChunksFile (saveChunks w cs).chunkFile = cs
  unfold saveChunks
  rw [if_pos hw]
  exact loadChunksFile_of_save cs

/-- Witness for C7 at a chunk whose content exercises the escaping of
newline, tab, quote and backslash. -/
theorem claim7_witness :
    loadChunks (saveChunks coldWorld [⟨"http://a", "line one\ntab\t\"q\\\""⟩])
      = [⟨"http://a", "line one\ntab\t\"q\\\""⟩] :=
  claim7_save_load_roundtrip coldWorld [⟨"http://a", "line one\ntab\t\"q\\\""⟩] rfl
    (by decide)

/-- Claim C8: size invariant — after every successful rebuild over a
non-empty chunk sequence, the number of vectors in the built index equals
the number of chunks. -/
theorem claim8_size_invariant (model : String → List Int) (w : World) (cs : List Chunk)
    (hne : cs ≠ []) :
    ∃ idx, (createAndSaveIndex model w cs).proc.index = some idx ∧
      idx.ntotal = cs.length := by
  cases cs with
  | nil => cases hne rfl
  | cons a rest =>
    refine ⟨FaissIndex.mk ((a :: rest).map (fun c : Chunk => model c.content)), rfl, ?_⟩
    simp [FaissIndex.ntotal]

/-- Witness for C8 over the three concrete chunks. -/
theorem claim8_witness :
    ∃ idx, (createAndSaveIndex embedLen coldWorld chunks3).proc.index = some idx ∧
      idx.ntotal = chunks3.length :=
  claim8_size_invariant embedLen coldWorld chunks3 (by decide)

/-- Claim C9: querying an empty or absent knowledge base never raises: when
the reloaded chunk list is empty, `handle_question_answering` returns the
explicit "knowledge base is empty" reply, and `search` on a processor with
no loaded index returns the empty list. -/
theorem claim9_empty_kb (model : String → List Int) (w : World) (question : String)
    (llmOk : Bool) (h : loadChunksFile w.chunkFile = []) :
    (handleQuestionAnswering model w question llmOk).2 = QAResult.kbEmpty ∧
    ∀ p : Proc, p.index = none → ∀ q k, searchProc model p q k = .ok [] := by
  constructor
  · simp [handleQuestionAnswering, h]
  · intro p hp q k
    unfold searchProc
    rw [hp]

/-- Witness for C9 at the cold-start world and an index-less processor. -/
theorem claim9_witness :
    (handleQuestionAnswering embedLen coldWorld "hi" false).2 = QAResult.kbEmpty ∧
    searchProc embedLen (Proc.mk none chunks3) "hi" 5 = .ok [] :=
  ⟨(claim9_empty_kb embedLen coldWorld "hi" false rfl).1,
   (claim9_empty_kb embedLen coldWorld "hi" false rfl).2 (Proc.mk none chunks3) rfl "hi" 5⟩

/-- Processor state in which an index (1 vector) is loaded but the paired
chunk list is empty — the state `load_index` leaves behind when the metadata
read fails after `faiss.read_index` succeeded. -/
def procBare : Proc := ⟨some ⟨[[0]]⟩, []⟩

/-- Claim C10 (counterexample): the claim says `search` is total on any
processor state.  With a 1-vector index paired with an empty chunk list and
`k = 2`, the padded label `-1` passes the `i < len(self.chunks)` guard and
`self.chunks[-1]` on the empty list raises `IndexError`. -/
theorem claim10_counterexample :
    searchProc embedLen procBare "q" 2 = .error () := by
  decide

/-- Claim C10 (amended): `search` is total on every processor state in which
the paired chunk list is non-empty or no index is loaded; only the anomalous
state of a loaded index paired with an empty chunk list can raise, via the
pad label `-1`. -/
theorem claim10_amended_search_total (model : String → List Int) (p : Proc)
    (q : String) (k : Nat) (h : p.chunks ≠ [] ∨ p.index = none) :
    ∃ l, searchProc model p q k = .ok l := by
  cases hp : p.index with
  | none =>
    refine ⟨[], ?_⟩
    unfold searchProc
    rw [hp]
  | some idx =>
    rcases h with hne | hnone
    · obtain ⟨l, hl⟩ := collectResults_ok p.chunks hne _ (searchLabels_ge idx (model q) k)
      refine ⟨l, ?_⟩
      unfold searchProc
      rw [hp]
      exact hl
    · rw [hp] at hnone
      exact Option.noConfusion hnone

/-- Witness for C10 (amended): the 3-chunk processor with a large `k`. -/
theorem claim10_witness :
    ∃ l, searchProc embedLen proc3 "zz" 9 = .ok l :=
  claim10_amended_search_total embedLen proc3 "zz" 9 (Or.inl (by decide))

end WebQA
